import Mathlib

/-!
Shallow embedding of `stagpy/rprof.py` (radial-profile post-processing).

Numeric code is modelled over `ℚ` (exact rational arithmetic standing for
the float arithmetic of the source, which performs only field operations
there), except for the theoretical initial-composition profile `initprof`,
which uses real powers with non-integer exponents and is modelled over `ℝ`.

Tables are modelled as lists: the profile table as a list of rows, each row
a function from column index to value (numpy row indexing that goes out of
bounds is modelled by `Option`; numpy *slices*, which clamp instead of
failing, are modelled by `drop`/`take`).
-/

/-! ### `_normprof`: volumetric norm of a profile (rprof.py lines 14-20) -/

/-- Trapezoidal rule `np.trapz(y, x)`: `Σ (x_{i+1} - x_i) * (y_i + y_{i+1}) / 2`. -/
def trapz : List ℚ → List ℚ → ℚ
  | y1 :: y2 :: ys, x1 :: x2 :: xs => (x2 - x1) * (y1 + y2) / 2 + trapz (y2 :: ys) (x2 :: xs)
  | _, _ => 0

/-- Source `_normprof(rrr, func)`:
`3. / (rrr[-1]**3 - rrr[0]**3) * itg.trapz(func**2 * rrr**2, rrr)`. -/
def normprof (rrr func : List ℚ) : ℚ :=
  3 / ((rrr.getLastD 0) ^ 3 - (rrr.headD 0) ^ 3) *
    trapz (List.zipWith (fun f r => f ^ 2 * r ^ 2) func rrr) rrr

/-! ### `_extrap`: linear interpolation with boundary extrapolation (lines 23-35) -/

/-- Reference `np.interp` on a list of `(x, y)` sample pairs (x ascending): clamps to the
boundary values outside the sample range, linear interpolation inside. -/
def np_interp (x : ℚ) : List (ℚ × ℚ) → ℚ
  | [] => 0
  | [(_, y1)] => y1
  | (x1, y1) :: (x2, y2) :: rest =>
    if x ≤ x1 then y1
    else if x ≤ x2 then y1 + (x - x1) * (y2 - y1) / (x2 - x1)
    else np_interp x ((x2, y2) :: rest)

/-- One element of `_extrap(xpos, xpoints, ypoints)`: the `np.interp` value,
overridden by the two boundary-slope extrapolation formulas exactly where the
source's boolean masks `xpos < xpoints[0]` and `xpos > xpoints[-1]` hold. -/
def extrapOne (xpoints ypoints : List ℚ) (x : ℚ) : ℚ :=
  let n := xpoints.length
  let x0 := xpoints.getD 0 0
  let x1 := xpoints.getD 1 0
  let xl := xpoints.getD (n - 1) 0
  let xl2 := xpoints.getD (n - 2) 0
  let y0 := ypoints.getD 0 0
  let y1 := ypoints.getD 1 0
  let yl := ypoints.getD (n - 1) 0
  let yl2 := ypoints.getD (n - 2) 0
  if x < x0 then y0 + (x - x0) * (y0 - y1) / (x0 - x1)
  else if xl < x then yl + (x - xl) * (yl - yl2) / (xl - xl2)
  else np_interp x (xpoints.zip ypoints)

/-- Source `_extrap(xpos, xpoints, ypoints)`: elementwise over the target positions. -/
def extrap (xpos xpoints ypoints : List ℚ) : List ℚ :=
  xpos.map (extrapOne xpoints ypoints)

/-! ### `_calc_energy`: energy balance (lines 38-54) -/

/-- numpy column slice `data[a:b, c]` of the profile table (slices clamp,
they never raise). -/
def rowSlice (data : List (ℕ → ℚ)) (a b c : ℕ) : List ℚ :=
  ((data.drop a).take (b - a)).map (fun row => row c)

/-- Source `_calc_energy(data, ir0, ir1)`, returning `(qtot, qadv, qcond, zgrid)`;
`none` models the `IndexError` of the scalar accesses `data[ir0, ...]` /
`data[ir1, ...]` when those rows do not exist. -/
def calc_energy (data : List (ℕ → ℚ)) (ir0 ir1 : ℕ) :
    Option (List ℚ × List ℚ × List ℚ × List ℚ) :=
  match data.get? ir0, data.get? ir1 with
  | some row0, some row1 =>
    let zgrid := rowSlice data ir0 ir1 63 ++ [1]
    let dzg := List.zipWith (· - ·) (rowSlice data (ir0 + 1) ir1 0)
      (rowSlice data ir0 (ir1 - 1) 0)
    let qadv := 0 :: (rowSlice data ir0 (ir1 - 1) 60 ++ [0])
    let qcondIn := List.zipWith (· / ·)
      (List.zipWith (· - ·) (rowSlice data ir0 (ir1 - 1) 1) (rowSlice data (ir0 + 1) ir1 1))
      dzg
    let qcond0 := (1 - row0 1) / row0 0
    let qtop := row1 1 / (1 - row1 0)
    let qcond := qcond0 :: (qcondIn ++ [qtop])
    let qtot := List.zipWith (· + ·) qadv qcond
    some (qtot, qadv, qcond, zgrid)
  | _, _ => none

/-! ### Profile index resolver (lines 104-115 inside `plotprofiles`) -/

/-- The row-range computation of `plotprofiles` for a requested `step`:
`ann = sorted(np.append(nzi[:, 0], step)); inn = ann.index(step)`
(`inn` is the number of first-column entries strictly below `step`),
`nnz = nzi[:,1] * nzi[:,2]`,
`ir0 = sum(nnz[0:inn]) + (step - nzi[inn-1, 0] - 1) * nzi[inn, 2]`,
`ir1 = ir0 + nzi[inn, 2] - 1`.
`nzi[inn-1]` uses Python negative-index wraparound when `inn = 0`;
`nzi[inn]` raises `IndexError` (modelled as `none`) when `inn` is past the
end of the table. -/
def resolveIdx (nzi : List (ℤ × ℤ × ℤ)) (step : ℤ) : Option (ℤ × ℤ) :=
  let inn : ℕ := nzi.countP (fun e => decide (e.1 < step))
  let prevIdx : ℕ := if inn = 0 then nzi.length - 1 else inn - 1
  match nzi.get? prevIdx, nzi.get? inn with
  | some prev, some cur =>
    let nnzsum := ((nzi.take inn).map (fun e => e.2.1 * e.2.2)).sum
    let ir0 := nnzsum + (step - prev.1 - 1) * cur.2.2
    some (ir0, ir0 + cur.2.2 - 1)
  | _, _ => none

/-! ### `plotaveragedprofiles`: time-averaged profiles (lines 286-312) -/

/-- Column selection `data[:, vartuple]`: select the columns listed in `cols` from one row. -/
def selectCols (cols : List ℕ) (row : ℕ → ℚ) : List ℚ :=
  cols.map (fun c => row c)

/-- Source `chunks(mydata, nbz)`: `[mydata[ii:ii + nbz] for ii in range(0, len(mydata), nbz)]`
(`range` with step `0` raises in Python; modelled as the empty list). -/
def listChunks (mydata : List (List ℚ)) (nbz : ℕ) : List (List (List ℚ)) :=
  if nbz = 0 then []
  else if mydata = [] then []
  else mydata.take nbz :: listChunks (mydata.drop nbz) nbz
termination_by mydata.length
decreasing_by
  simp only [List.length_drop]
  rename_i h1 h2
  have : mydata.length ≠ 0 := fun h => h2 (List.eq_nil_of_length_eq_zero h)
  omega

/-- Elementwise sum of two matrices (numpy `+` on equal-shaped 2-D arrays). -/
def addMat (a b : List (List ℚ)) : List (List ℚ) :=
  List.zipWith (List.zipWith (· + ·)) a b

/-- Sum of a list of equal-shaped matrices. -/
def sumMats : List (List (List ℚ)) → List (List ℚ)
  | [] => []
  | [m] => m
  | m :: rest => addMat m (sumMats rest)

/-- Mean `np.mean(ms, axis=0)` over a list of equal-shaped matrices. -/
def meanMats (ms : List (List (List ℚ))) : List (List ℚ) :=
  (sumMats ms).map (fun row => row.map (fun x => x / (ms.length : ℚ)))

/-- The averaging core of `plotaveragedprofiles`:
`nztot = int(np.shape(data)[0] / np.shape(tsteps)[0])`,
`donnee = np.array(data[:, vartuple], float)`,
`donnee_chunk = chunks(donnee, nztot)`,
`donnee_averaged = np.mean(donnee_chunk, axis=0)`. -/
def averagedProfile (data : List (ℕ → ℚ)) (tsteps : List (ℕ → ℚ)) (cols : List ℕ) :
    List (List ℚ) :=
  let nztot := data.length / tsteps.length
  let donnee := data.map (selectCols cols)
  meanMats (listChunks donnee nztot)

/-! ### Output file names (lines 91, 232-246, 384-385) -/

/-- Python `str(istart) + "_" + str(ilast - 1) + "_" + str(istep)` (line 91). -/
def timename (istart ilast istep : ℤ) : String :=
  toString istart ++ "_" ++ toString (ilast - 1) ++ "_" ++ toString istep

/-- Python `s.replace(' ', '_')` for the single-character pattern: charwise map. -/
def replaceSpaces (s : String) : String :=
  { data := s.data.map (fun c => if c = ' ' then '_' else c) }

/-- Per-quantity figure file name, the `savefig` dispatch of `plotprofiles`
(lines 231-246): `"Grid" + timename + ".pdf"` for quantity `Grid`,
`"Gridkm" + timename + ".pdf"` for quantity `Grid km`, and
`quant[0].replace(' ', '_') + timename + ".pdf"` for every other quantity. -/
def profFigName (quant0 : String) (istart ilast istep : ℤ) : String :=
  if quant0 = "Grid" then "Grid" ++ timename istart ilast istep ++ ".pdf"
  else if quant0 = "Grid km" then "Gridkm" ++ timename istart ilast istep ++ ".pdf"
  else replaceSpaces quant0 ++ timename istart ilast istep ++ ".pdf"

/-- Averaged-profile figure file name, line 384:
`"fig_" + "average" + quant[0].replace(' ', '_') + ".pdf"`. -/
def avgFigName (quant0 : String) : String :=
  "fig_" ++ "average" ++ replaceSpaces quant0 ++ ".pdf"

/-! ### `rprof_cmd` difference-plot gating (lines 390-394 and 466-477) -/

/-- The plot-selection flags of `args` that `rprof_cmd` consults for the
difference-tracking outputs. -/
structure CmdArgs where
  plot_difference : Bool
  plot_conctheo : Bool
  plot_temperature : Bool
  plot_concentration : Bool

/-- Lines 392-394: `if not (args.plot_conctheo and args.plot_temperature and
args.plot_concentration): args.plot_difference = False`. -/
def applyDiffGuard (a : CmdArgs) : CmdArgs :=
  if ¬(a.plot_conctheo = true ∧ a.plot_temperature = true ∧ a.plot_concentration = true)
  then { a with plot_difference := false }
  else a

/-- Line 466: the `Difference_to_overturned` figure and `statmin.dat` are
written exactly when `args.plot_difference` still holds after the guard. -/
def producesDifferenceOutputs (a : CmdArgs) : Bool :=
  (applyDiffGuard a).plot_difference

/-! ### `initprof`: theoretical initial composition profile (lines 416-433)

Real powers with non-integer exponents (`**(1 / (1 - k_fe))`, `**(1/3)`,
`**(1 - k_fe)`) are modelled by `Real.rpow`. -/

/-- Source `xi0s = k_fe * xi0l` (line 420). -/
def xi0s (k_fe xi0l : ℝ) : ℝ := k_fe * xi0l

/-- Source `xired = xi0l / xieut` (line 421). -/
noncomputable def xired (xieut xi0l : ℝ) : ℝ := xi0l / xieut

/-- Source `rsup = (rmax**3 - xired**(1 / (1 - k_fe)) * (rmax**3 - rmin**3))**(1/3)`
(lines 422-423). -/
noncomputable def rsup (rmin rmax xieut k_fe xi0l : ℝ) : ℝ :=
  (rmax ^ 3 - xired xieut xi0l ^ ((1 : ℝ) / (1 - k_fe)) * (rmax ^ 3 - rmin ^ 3)) ^ ((1 : ℝ) / 3)

/-- The power-law branch of `initprof` (lines 429-430):
`xi0s * ((rmax**3 - rmin**3) / (rmax**3 - rpos**3))**(1 - k_fe)`. -/
noncomputable def powerBranch (rmin rmax k_fe xi0l rpos : ℝ) : ℝ :=
  xi0s k_fe xi0l * ((rmax ^ 3 - rmin ^ 3) / (rmax ^ 3 - rpos ^ 3)) ^ ((1 : ℝ) - k_fe)

/-- Source `initprof(rpos)` (lines 426-432). -/
noncomputable def initprof (rmin rmax xieut k_fe xi0l rpos : ℝ) : ℝ :=
  if rpos < rsup rmin rmax xieut k_fe xi0l
  then powerBranch rmin rmax k_fe xi0l rpos
  else xieut

/-! ## Theorems -/

/-! ### C10: gating of the difference-tracking outputs -/

/-- C10: the `Difference_to_overturned` figure and `statmin.dat` are produced
iff `plot_difference` is set together with all of `plot_conctheo`,
`plot_temperature` and `plot_concentration`; `rprof_cmd` silently forces
`plot_difference` off whenever one of the three is disabled. -/
theorem difference_outputs_iff (a : CmdArgs) :
    producesDifferenceOutputs a = true ↔
      a.plot_difference = true ∧ a.plot_conctheo = true ∧
        a.plot_temperature = true ∧ a.plot_concentration = true := by
  obtain ⟨d, ct, t, c⟩ := a
  cases d <;> cases ct <;> cases t <;> cases c <;>
    simp [producesDifferenceOutputs, applyDiffGuard]

/-! ### C2: profile index resolver, constant-resolution run -/

/-- C2 (counterexample): for the single-entry table `[(3, 3, 4)]` and requested
step `2`, the resolver computes `ir0 = -8`, not `(step - 1) * 4 = 4` as the
claim states. -/
theorem resolveIdx_claim_false :
    resolveIdx [(3, 3, 4)] 2 = some (-8, -5) ∧ (-8 : ℤ) ≠ (2 - 1) * 4 := by decide

/-- C2 (amended): for a single-entry table `[(t0, n1, n2)]` and any requested
`step ≤ t0`, the resolver computes `ir0 = (step - t0 - 1) * n2` (a negative
number) and `ir1 = ir0 + n2 - 1`; when the profile table holds `t0 * n2` rows,
this `ir0`, used as a Python negative index, denotes the effective row
`(step - 1) * n2`.  (For `step > t0` the access `nzi[inn, 2]` raises
`IndexError`.) -/
theorem resolveIdx_single_entry (t0 n1 n2 step : ℤ) (hstep : step ≤ t0) :
    resolveIdx [(t0, n1, n2)] step =
      some ((step - t0 - 1) * n2, (step - t0 - 1) * n2 + n2 - 1) ∧
    t0 * n2 + (step - t0 - 1) * n2 = (step - 1) * n2 := by
  constructor
  · simp [resolveIdx, List.countP_cons, not_lt.2 hstep]
  · ring

/-- Witness for `resolveIdx_single_entry` at `t0 = 3`, `n2 = 4`, `step = 2`. -/
theorem resolveIdx_single_entry_witness :
    (2 : ℤ) ≤ 3 ∧
      (resolveIdx [(3, 3, 4)] 2 =
          some ((2 - 3 - 1) * 4, (2 - 3 - 1) * 4 + 4 - 1) ∧
        (3 : ℤ) * 4 + (2 - 3 - 1) * 4 = (2 - 1) * 4) :=
  ⟨by decide, resolveIdx_single_entry 3 3 4 2 (by decide)⟩

/-! ### C3: volumetric norm of a constant profile -/

theorem trapz_map_mul (c : ℚ) :
    ∀ ys xs : List ℚ, trapz (ys.map (fun y => c * y)) xs = c * trapz ys xs
  | [], _ => by simp [trapz]
  | [_], xs => by cases xs <;> simp [trapz]
  | _ :: _ :: _, [] => by simp [trapz]
  | _ :: _ :: _, [_] => by simp [trapz]
  | y1 :: y2 :: ys, x1 :: x2 :: xs => by
    have ih := trapz_map_mul c (y2 :: ys) (x2 :: xs)
    simp only [List.map_cons] at ih ⊢
    simp only [trapz, ih]
    ring

theorem zipWith_replicate_sq (c : ℚ) :
    ∀ rrr : List ℚ,
      List.zipWith (fun f r => f ^ 2 * r ^ 2) (List.replicate rrr.length c) rrr =
        rrr.map (fun r => c ^ 2 * r ^ 2)
  | [] => rfl
  | r :: rs => by
    simpa [List.replicate_succ] using zipWith_replicate_sq c rs

/-- C3 (counterexample): for the strictly ascending radius array `[0, 1]` and
the constant profile `c = 1`, `_normprof` returns `3/2`, not `c² = 1`:
the trapezoidal rule is not exact for the quadratic weight `r²`. -/
theorem normprof_claim_false :
    normprof [0, 1] (List.replicate 2 1) = 3 / 2 ∧ (3 / 2 : ℚ) ≠ 1 ^ 2 := by
  constructor
  · norm_num [normprof, trapz, List.replicate, List.zipWith]
  · norm_num

/-- C3 (amended): for a constant profile `c`, `_normprof` returns `c²` times
the norm of the constant-one profile on the same radius grid — a grid-dependent
factor (`3/2` on the grid `[0, 1]`) that in general differs from `1`, so the
result is not `c²` and is not independent of the radius samples. -/
theorem normprof_const (rrr : List ℚ) (c : ℚ) :
    normprof rrr (List.replicate rrr.length c) =
      c ^ 2 * normprof rrr (List.replicate rrr.length 1) := by
  unfold normprof
  rw [zipWith_replicate_sq, zipWith_replicate_sq]
  have h1 : rrr.map (fun r => (1 : ℚ) ^ 2 * r ^ 2) = rrr.map (fun r => r ^ 2) := by
    simp
  have h2 : rrr.map (fun r => c ^ 2 * r ^ 2) =
      (rrr.map (fun r => r ^ 2)).map (fun y => c ^ 2 * y) := by
    simp [List.map_map, Function.comp]
  rw [h1, h2, trapz_map_mul]
  ring

/-! ### C7: `_extrap` totality and shape -/

/-- C7: `_extrap` always returns an output of the same shape as the
target-position array; no input (monotonic or not) can make it fail, since
every arithmetic step is total (division by zero included). -/
theorem extrap_length (xpos xpoints ypoints : List ℚ)
    (_hn : 2 ≤ xpoints.length) :
    (extrap xpos xpoints ypoints).length = xpos.length := by
  simp [extrap]

/-- Witness for `extrap_length` on non-monotonic sample points `[1, 1]`. -/
theorem extrap_length_witness :
    2 ≤ ([1, 1] : List ℚ).length ∧
      (extrap [5, -5] [1, 1] [2, 3]).length = ([5, -5] : List ℚ).length :=
  ⟨by decide, extrap_length [5, -5] [1, 1] [2, 3] (by decide)⟩

/-! ### C8: output file names -/

/-- C8 (counterexample): the claimed naming rule fails twice on the code: for
quantity `Grid km` the figure is `Gridkm0_99_1.pdf` (line 234 does not replace
the space by an underscore but deletes it), and for quantity `Temperature`
the figure is `Temperature0_99_1.pdf`, with no underscore between the
quantity name and the range, unlike the spec's example
`Temperature_0_99_1.pdf`. -/
theorem profFigName_claim_false :
    profFigName "Grid km" 0 100 1 = "Gridkm0_99_1.pdf" ∧
    profFigName "Grid km" 0 100 1 ≠ "Grid_km_0_99_1.pdf" ∧
    profFigName "Grid km" 0 100 1 ≠ "Grid_km0_99_1.pdf" ∧
    profFigName "Temperature" 0 100 1 = "Temperature0_99_1.pdf" ∧
    profFigName "Temperature" 0 100 1 ≠ "Temperature_0_99_1.pdf" :=
  ⟨by decide, by decide, by decide, by decide, by decide⟩

/-- C8 (amended): the averaged-profile file name is `fig_average` + quantity
(spaces to underscores) + `.pdf` for every quantity.  The per-quantity figure
name is the quantity name with spaces replaced by underscores, directly
followed (no separator) by the range `istart_(ilast-1)_istep` and `.pdf`
(e.g. `Temperature0_99_1.pdf`) for every quantity other than `Grid` and
`Grid km`; those two are special-cased to `Grid` + range + `.pdf` and
`Gridkm` + range + `.pdf`. -/
theorem figure_names (quant0 : String) (istart ilast istep : ℤ) :
    (quant0 ≠ "Grid" → quant0 ≠ "Grid km" →
      profFigName quant0 istart ilast istep =
        replaceSpaces quant0 ++
          (toString istart ++ "_" ++ toString (ilast - 1) ++ "_" ++ toString istep ++ ".pdf")) ∧
    profFigName "Grid" istart ilast istep =
      "Grid" ++
        (toString istart ++ "_" ++ toString (ilast - 1) ++ "_" ++ toString istep ++ ".pdf") ∧
    profFigName "Grid km" istart ilast istep =
      "Gridkm" ++
        (toString istart ++ "_" ++ toString (ilast - 1) ++ "_" ++ toString istep ++ ".pdf") ∧
    avgFigName quant0 = "fig_average" ++ replaceSpaces quant0 ++ ".pdf" := by
  refine ⟨?_, ?_, ?_, ?_⟩
  · intro h1 h2
    simp only [profFigName]
    rw [if_neg h1, if_neg h2]
    simp [timename, String.append_assoc]
  · simp [profFigName, timename, String.append_assoc]
  · simp [profFigName, timename, String.append_assoc]
  · simp [avgFigName, ← String.append_assoc]

/-- Witness for `figure_names` at quantity `Temperature`. -/
theorem figure_names_witness :
    ("Temperature" ≠ "Grid" ∧ "Temperature" ≠ "Grid km") ∧
    profFigName "Temperature" 0 100 1 =
      replaceSpaces "Temperature" ++
        (toString (0 : ℤ) ++ "_" ++ toString ((100 : ℤ) - 1) ++ "_" ++
          toString (1 : ℤ) ++ ".pdf") :=
  ⟨⟨by decide, by decide⟩,
    (figure_names "Temperature" 0 100 1).1 (by decide) (by decide)⟩

/-! ### C1 and C9: `_calc_energy` -/

theorem rowSlice_length (data : List (ℕ → ℚ)) (a b c : ℕ) :
    (rowSlice data a b c).length = min (b - a) (data.length - a) := by
  simp [rowSlice]

theorem rowSlice_length_of_le (data : List (ℕ → ℚ)) (a b c : ℕ)
    (h : b ≤ data.length) : (rowSlice data a b c).length = b - a := by
  simp only [rowSlice, List.length_map, List.length_take, List.length_drop]
  omega

theorem getD_zipWith_add (a : List ℚ) :
    ∀ (b : List ℚ), a.length = b.length → ∀ i : ℕ,
      (List.zipWith (· + ·) a b).getD i 0 = a.getD i 0 + b.getD i 0 := by
  induction a with
  | nil =>
    intro b hb i
    have : b = [] := by
      cases b with
      | nil => rfl
      | cons y ys => simp at hb
    subst this
    simp
  | cons x xs ih =>
    intro b hb i
    cases b with
    | nil => simp at hb
    | cons y ys =>
      cases i with
      | zero => simp
      | succ j =>
        simp only [List.zipWith_cons_cons, List.getD_cons_succ]
        exact ih ys (by simpa using hb) j

/-- C1: for every valid slice (at least 2 rows, all referenced rows present),
the total heat-flux array returned by `_calc_energy` equals the element-wise
sum of the advective-flux and conductive-flux arrays it returns, at every
depth index. -/
theorem calc_energy_total (data : List (ℕ → ℚ)) (ir0 ir1 : ℕ)
    (h2 : ir0 + 2 ≤ ir1) (hlen : ir1 < data.length) :
    ∃ qtot qadv qcond zgrid,
      calc_energy data ir0 ir1 = some (qtot, qadv, qcond, zgrid) ∧
      ∀ i : ℕ, qtot.getD i 0 = qadv.getD i 0 + qcond.getD i 0 := by
  have h0 : ir0 < data.length := by omega
  rw [calc_energy, List.get?_eq_get h0, List.get?_eq_get hlen]
  refine ⟨_, _, _, _, rfl, ?_⟩
  intro i
  apply getD_zipWith_add
  have e1 : ir1 ≤ data.length := le_of_lt hlen
  have e2 : ir1 - 1 ≤ data.length := by omega
  simp only [List.length_cons, List.length_append, List.length_zipWith,
    rowSlice_length_of_le data _ _ _ e1, rowSlice_length_of_le data _ _ _ e2,
    List.length_nil]
  omega

/-- Witness for `calc_energy_total` on a concrete three-row table. -/
theorem calc_energy_total_witness :
    ((0 : ℕ) + 2 ≤ 2 ∧ 2 < ([fun _ => (1 : ℚ), fun _ => 2, fun _ => 3] : List (ℕ → ℚ)).length) ∧
    (∃ qtot qadv qcond zgrid,
      calc_energy [fun _ => (1 : ℚ), fun _ => 2, fun _ => 3] 0 2 =
        some (qtot, qadv, qcond, zgrid) ∧
      ∀ i : ℕ, qtot.getD i 0 = qadv.getD i 0 + qcond.getD i 0) :=
  ⟨⟨by decide, by simp⟩,
    calc_energy_total [fun _ => (1 : ℚ), fun _ => 2, fun _ => 3] 0 2 (by decide) (by simp)⟩

/-- C9: `_calc_energy` returns four arrays of the same length `ir1 - ir0 + 1`;
the top-boundary conductive correction (the last entry of the conductive
array) is computed from the row at index `ir1` itself, so row `ir1` must
exist — when it does not, the computation fails (`IndexError`). -/
theorem calc_energy_shape (data : List (ℕ → ℚ)) (ir0 ir1 : ℕ) (h2 : ir0 + 2 ≤ ir1) :
    (ir1 < data.length →
      ∃ qtot qadv qcond zgrid,
        calc_energy data ir0 ir1 = some (qtot, qadv, qcond, zgrid) ∧
        qtot.length = ir1 - ir0 + 1 ∧ qadv.length = ir1 - ir0 + 1 ∧
        qcond.length = ir1 - ir0 + 1 ∧ zgrid.length = ir1 - ir0 + 1 ∧
        qcond.getLast? =
          some ((data.getD ir1 (fun _ => 0)) 1 / (1 - (data.getD ir1 (fun _ => 0)) 0))) ∧
    (data.length ≤ ir1 → calc_energy data ir0 ir1 = none) := by
  constructor
  · intro hlen
    have h0 : ir0 < data.length := by omega
    rw [calc_energy, List.get?_eq_get h0, List.get?_eq_get hlen]
    have e1 : ir1 ≤ data.length := le_of_lt hlen
    have e2 : ir1 - 1 ≤ data.length := by omega
    refine ⟨_, _, _, _, rfl, ?_, ?_, ?_, ?_, ?_⟩
    · simp only [List.length_zipWith, List.length_cons, List.length_append,
        rowSlice_length_of_le data _ _ _ e1, rowSlice_length_of_le data _ _ _ e2,
        List.length_nil]
      omega
    · simp only [List.length_cons, List.length_append,
        rowSlice_length_of_le data _ _ _ e2, List.length_nil]
      omega
    · simp only [List.length_cons, List.length_append, List.length_zipWith,
        rowSlice_length_of_le data _ _ _ e1, rowSlice_length_of_le data _ _ _ e2,
        List.length_nil]
      omega
    · simp only [List.length_append, rowSlice_length_of_le data _ _ _ e1,
        List.length_cons, List.length_nil]
    · rw [show ∀ (q0 qt : ℚ) (l : List ℚ), q0 :: (l ++ [qt]) = (q0 :: l) ++ [qt]
        from fun _ _ _ => rfl]
      rw [List.getLast?_concat]
      simp [List.getD_eq_getElem _ _ hlen, List.get_eq_getElem,
        List.getElem?_eq_getElem hlen]
  · intro hlen
    have : data.get? ir1 = none := List.get?_eq_none.2 hlen
    rw [calc_energy, this]
    rcases data.get? ir0 <;> rfl

/-- Witness for `calc_energy_shape` on a concrete three-row table. -/
theorem calc_energy_shape_witness :
    ((0 : ℕ) + 2 ≤ 2) ∧
    ((2 < ([fun _ => (1 : ℚ), fun _ => 2, fun _ => 3] : List (ℕ → ℚ)).length →
      ∃ qtot qadv qcond zgrid,
        calc_energy [fun _ => (1 : ℚ), fun _ => 2, fun _ => 3] 0 2 =
          some (qtot, qadv, qcond, zgrid) ∧
        qtot.length = 2 - 0 + 1 ∧ qadv.length = 2 - 0 + 1 ∧
        qcond.length = 2 - 0 + 1 ∧ zgrid.length = 2 - 0 + 1 ∧
        qcond.getLast? =
          some ((([fun _ => (1 : ℚ), fun _ => 2, fun _ => 3] : List (ℕ → ℚ)).getD 2 (fun _ => 0)) 1 /
            (1 - (([fun _ => (1 : ℚ), fun _ => 2, fun _ => 3] : List (ℕ → ℚ)).getD 2 (fun _ => 0)) 0))) ∧
    (([fun _ => (1 : ℚ), fun _ => 2, fun _ => 3] : List (ℕ → ℚ)).length ≤ 2 →
      calc_energy [fun _ => (1 : ℚ), fun _ => 2, fun _ => 3] 0 2 = none)) :=
  ⟨by decide, calc_energy_shape [fun _ => (1 : ℚ), fun _ => 2, fun _ => 3] 0 2 (by decide)⟩

/-! ### C6: time-averaged profile of two identical timesteps -/

theorem listChunks_nil (nbz : ℕ) : listChunks [] nbz = [] := by
  rw [listChunks]
  simp

theorem listChunks_append (d rest : List (List ℚ)) (nbz : ℕ)
    (hnz : nbz ≠ 0) (hd : d.length = nbz) :
    listChunks (d ++ rest) nbz = d :: listChunks rest nbz := by
  have hdne : d ≠ [] := by
    intro h
    subst h
    simp at hd
    omega
  rw [listChunks]
  rw [if_neg hnz, if_neg (by simp [hdne])]
  rw [List.take_left' hd, List.drop_left' hd]

theorem listChunks_exact (d : List (List ℚ)) (nbz : ℕ)
    (hnz : nbz ≠ 0) (hd : d.length = nbz) : listChunks d nbz = [d] := by
  have h := listChunks_append d [] nbz hnz hd
  rw [List.append_nil, listChunks_nil] at h
  exact h

theorem addMat_self (d : List (List ℚ)) :
    addMat d d = d.map (fun row => row.map (fun x => x + x)) := by
  rw [addMat, List.zipWith_same]
  refine List.map_congr_left fun row _ => ?_
  rw [List.zipWith_same]

theorem map_half_double (row : List ℚ) :
    (row.map (fun x => x + x)).map (fun x => x / ((2 : ℕ) : ℚ)) = row := by
  induction row with
  | nil => rfl
  | cons x xs ih =>
    simp only [List.map_cons, ih]
    congr 1
    push_cast
    ring

theorem meanMats_pair_same (d : List (List ℚ)) : meanMats [d, d] = d := by
  show (addMat d d).map (fun row => row.map (fun x => x / ((2 : ℕ) : ℚ))) = d
  rw [addMat_self, List.map_map]
  have h : ∀ row ∈ d, ((fun r : List ℚ => r.map (fun x => x / ((2 : ℕ) : ℚ))) ∘
      (fun r : List ℚ => r.map (fun x => x + x))) row = id row := by
    intro row _
    exact map_half_double row
  rw [List.map_congr_left h, List.map_id]

/-- C6: for a profile table made of two identical timesteps (the same block of
rows twice) and a two-row timestep metadata table, the time-averaged profile
computed by `plotaveragedprofiles` equals the profile of either single
timestep, at every depth level and selected column. -/
theorem averagedProfile_two_identical (blk : List (ℕ → ℚ)) (t1 t2 : ℕ → ℚ)
    (cols : List ℕ) (hne : blk ≠ []) :
    averagedProfile (blk ++ blk) [t1, t2] cols = blk.map (selectCols cols) := by
  show meanMats (listChunks ((blk ++ blk).map (selectCols cols))
      ((blk ++ blk).length / ([t1, t2] : List (ℕ → ℚ)).length)) =
    blk.map (selectCols cols)
  have hlen : (blk ++ blk).length / ([t1, t2] : List (ℕ → ℚ)).length = blk.length := by
    simp only [List.length_append, List.length_cons, List.length_nil]
    omega
  have hnz : blk.length ≠ 0 := fun h => hne (List.eq_nil_of_length_eq_zero h)
  have hmlen : (blk.map (selectCols cols)).length = blk.length := List.length_map _ _
  rw [hlen, List.map_append,
    listChunks_append _ _ _ hnz hmlen,
    listChunks_exact _ _ hnz hmlen]
  exact meanMats_pair_same _

/-- Witness for `averagedProfile_two_identical` on a one-row block. -/
theorem averagedProfile_two_identical_witness :
    ([fun _ => (7 : ℚ)] : List (ℕ → ℚ)) ≠ [] ∧
      averagedProfile ([fun _ => (7 : ℚ)] ++ [fun _ => (7 : ℚ)])
          [fun _ => 0, fun _ => 1] [0, 2] =
        ([fun _ => (7 : ℚ)] : List (ℕ → ℚ)).map (selectCols [0, 2]) :=
  ⟨by simp, averagedProfile_two_identical [fun _ => (7 : ℚ)] (fun _ => 0) (fun _ => 1)
    [0, 2] (by simp)⟩

/-! ### C5: `_extrap` interpolation and boundary extrapolation -/

theorem pairwise_getD_lt (xs : List ℚ) (hs : xs.Pairwise (· < ·))
    (j k : ℕ) (hjk : j < k) (hk : k < xs.length) :
    xs.getD j 0 < xs.getD k 0 := by
  have hj : j < xs.length := lt_trans hjk hk
  rw [List.getD_eq_getElem _ _ hj, List.getD_eq_getElem _ _ hk]
  have h := List.pairwise_iff_get.1 hs ⟨j, hj⟩ ⟨k, hk⟩ (by simpa using hjk)
  simpa [List.get_eq_getElem] using h

theorem pairwise_getD_le (xs : List ℚ) (hs : xs.Pairwise (· < ·))
    (j k : ℕ) (hjk : j ≤ k) (hk : k < xs.length) :
    xs.getD j 0 ≤ xs.getD k 0 := by
  rcases eq_or_lt_of_le hjk with h | h
  · rw [h]
  · exact le_of_lt (pairwise_getD_lt xs hs j k h hk)

theorem getD_mem_of_lt (xs : List ℚ) (j : ℕ) (hj : j < xs.length) :
    xs.getD j 0 ∈ xs := by
  rw [List.getD_eq_getElem _ _ hj]
  exact List.getElem_mem hj

theorem np_interp_segment :
    ∀ (xs ys : List ℚ) (i : ℕ) (x : ℚ),
      xs.Pairwise (· < ·) → ys.length = xs.length → i + 1 < xs.length →
      xs.getD i 0 ≤ x → x ≤ xs.getD (i + 1) 0 →
      np_interp x (xs.zip ys) =
        ys.getD i 0 + (x - xs.getD i 0) * (ys.getD (i + 1) 0 - ys.getD i 0) /
          (xs.getD (i + 1) 0 - xs.getD i 0) := by
  intro xs
  induction xs with
  | nil =>
    intro ys i x _ _ hi _ _
    simp at hi
  | cons x1 xs' ih =>
    intro ys i x hp hl hi hle hge
    cases ys with
    | nil => simp at hl
    | cons y1 ys' =>
      cases xs' with
      | nil => simp at hi
      | cons x2 xs'' =>
        cases ys' with
        | nil => simp at hl
        | cons y2 ys'' =>
          have hzip : (x1 :: x2 :: xs'').zip (y1 :: y2 :: ys'') =
              (x1, y1) :: (x2, y2) :: xs''.zip ys'' := rfl
          have h12 : x1 < x2 := (List.pairwise_cons.1 hp).1 x2 (by simp)
          cases i with
          | zero =>
            simp only [List.getD_cons_zero, List.getD_cons_succ] at hle hge ⊢
            by_cases hx1 : x ≤ x1
            · have hxeq : x = x1 := le_antisymm hx1 hle
              rw [hzip, np_interp, if_pos hx1, hxeq]
              simp
            · rw [hzip, np_interp, if_neg hx1, if_pos hge]
          | succ j =>
            simp only [List.getD_cons_succ] at hle hge ⊢
            have hj1 : j + 1 < (x2 :: xs'').length := by
              simpa using hi
            have hj : j < (x2 :: xs'').length := by omega
            have hx1lt : x1 < x := by
              have hmem : (x2 :: xs'').getD j 0 ∈ x2 :: xs'' :=
                getD_mem_of_lt _ j hj
              exact lt_of_lt_of_le ((List.pairwise_cons.1 hp).1 _ hmem) hle
            by_cases hx2 : x ≤ x2
            · have hj0 : j = 0 := by
                by_contra hj0
                have h0j : (x2 :: xs'').getD 0 0 < (x2 :: xs'').getD j 0 :=
                  pairwise_getD_lt _ (List.pairwise_cons.1 hp).2 0 j
                    (Nat.pos_of_ne_zero hj0) hj
                simp only [List.getD_cons_zero] at h0j
                exact absurd (le_trans hle hx2) (not_le.2 h0j)
              subst hj0
              simp only [List.getD_cons_zero, List.getD_cons_succ] at hle hge ⊢
              have hxeq : x = x2 := le_antisymm hx2 hle
              rw [hzip, np_interp, if_neg (not_le.2 hx1lt), if_pos hx2, hxeq,
                mul_div_cancel_left₀ _ (sub_ne_zero.2 (ne_of_gt h12))]
              simp only [sub_self, zero_mul, zero_div, add_zero]
              ring
            · rw [hzip, np_interp, if_neg (not_le.2 hx1lt), if_neg hx2]
              have hrec := ih (y2 :: ys'') j x (List.pairwise_cons.1 hp).2
                (by simpa using hl) hj1 hle hge
              simp only [List.getD_cons_succ] at hrec
              rw [show (x2 :: xs'').zip (y2 :: ys'') = (x2, y2) :: xs''.zip ys''
                from rfl] at hrec
              exact hrec

/-- C5: for at least 2 strictly increasing sample points, `_extrap` returns
the standard linear interpolation value for every position inside the sample
range; below the first sample it extrapolates with the slope between the
first two samples; above the last sample it extrapolates with the slope
between the last two samples. -/
theorem extrap_spec (xpoints ypoints : List ℚ)
    (hsort : xpoints.Pairwise (· < ·)) (hlen : ypoints.length = xpoints.length)
    (h2 : 2 ≤ xpoints.length) :
    (∀ (i : ℕ) (x : ℚ), i + 1 < xpoints.length →
      xpoints.getD i 0 ≤ x → x ≤ xpoints.getD (i + 1) 0 →
      extrapOne xpoints ypoints x =
        ypoints.getD i 0 + (x - xpoints.getD i 0) *
          (ypoints.getD (i + 1) 0 - ypoints.getD i 0) /
          (xpoints.getD (i + 1) 0 - xpoints.getD i 0)) ∧
    (∀ x : ℚ, x < xpoints.getD 0 0 →
      extrapOne xpoints ypoints x =
        ypoints.getD 0 0 + (x - xpoints.getD 0 0) *
          ((ypoints.getD 1 0 - ypoints.getD 0 0) / (xpoints.getD 1 0 - xpoints.getD 0 0))) ∧
    (∀ x : ℚ, xpoints.getD (xpoints.length - 1) 0 < x →
      extrapOne xpoints ypoints x =
        ypoints.getD (xpoints.length - 1) 0 + (x - xpoints.getD (xpoints.length - 1) 0) *
          ((ypoints.getD (xpoints.length - 1) 0 - ypoints.getD (xpoints.length - 2) 0) /
           (xpoints.getD (xpoints.length - 1) 0 - xpoints.getD (xpoints.length - 2) 0))) := by
  refine ⟨?_, ?_, ?_⟩
  · intro i x hi hxi hxi1
    have hx0le : xpoints.getD 0 0 ≤ x :=
      le_trans (pairwise_getD_le xpoints hsort 0 i (Nat.zero_le i) (by omega)) hxi
    have hxlle : x ≤ xpoints.getD (xpoints.length - 1) 0 :=
      le_trans hxi1
        (pairwise_getD_le xpoints hsort (i + 1) (xpoints.length - 1) (by omega) (by omega))
    simp only [extrapOne]
    rw [if_neg (not_lt.2 hx0le), if_neg (not_lt.2 hxlle)]
    exact np_interp_segment xpoints ypoints i x hsort hlen hi hxi hxi1
  · intro x hx
    simp only [extrapOne]
    rw [if_pos hx, mul_div_assoc, ← neg_sub (ypoints.getD 1 0), ← neg_sub (xpoints.getD 1 0),
      neg_div_neg_eq]
  · intro x hx
    have hx0lt : xpoints.getD 0 0 < x :=
      lt_of_le_of_lt
        (pairwise_getD_le xpoints hsort 0 (xpoints.length - 1) (by omega) (by omega)) hx
    simp only [extrapOne]
    rw [if_neg (not_lt.2 (le_of_lt hx0lt)), if_pos hx, mul_div_assoc]

/-- Witness for `extrap_spec`: samples `x = [0, 2, 4]`, `y = [0, 2, 3]`, with
an interior point, a point below range and a point above range. -/
theorem extrap_spec_witness :
    (([0, 2, 4] : List ℚ).Pairwise (· < ·) ∧
      ([0, 2, 3] : List ℚ).length = ([0, 2, 4] : List ℚ).length ∧
      2 ≤ ([0, 2, 4] : List ℚ).length) ∧
    extrapOne [0, 2, 4] [0, 2, 3] 1 =
      ([0, 2, 3] : List ℚ).getD 0 0 + (1 - ([0, 2, 4] : List ℚ).getD 0 0) *
        (([0, 2, 3] : List ℚ).getD 1 0 - ([0, 2, 3] : List ℚ).getD 0 0) /
        (([0, 2, 4] : List ℚ).getD 1 0 - ([0, 2, 4] : List ℚ).getD 0 0) ∧
    extrapOne [0, 2, 4] [0, 2, 3] (-1) =
      ([0, 2, 3] : List ℚ).getD 0 0 + (-1 - ([0, 2, 4] : List ℚ).getD 0 0) *
        ((([0, 2, 3] : List ℚ).getD 1 0 - ([0, 2, 3] : List ℚ).getD 0 0) /
         (([0, 2, 4] : List ℚ).getD 1 0 - ([0, 2, 4] : List ℚ).getD 0 0)) ∧
    extrapOne [0, 2, 4] [0, 2, 3] 5 =
      ([0, 2, 3] : List ℚ).getD (([0, 2, 4] : List ℚ).length - 1) 0 +
        (5 - ([0, 2, 4] : List ℚ).getD (([0, 2, 4] : List ℚ).length - 1) 0) *
        ((([0, 2, 3] : List ℚ).getD (([0, 2, 4] : List ℚ).length - 1) 0 -
            ([0, 2, 3] : List ℚ).getD (([0, 2, 4] : List ℚ).length - 2) 0) /
         (([0, 2, 4] : List ℚ).getD (([0, 2, 4] : List ℚ).length - 1) 0 -
            ([0, 2, 4] : List ℚ).getD (([0, 2, 4] : List ℚ).length - 2) 0)) :=
  ⟨⟨by decide, by decide, by decide⟩,
    (extrap_spec [0, 2, 4] [0, 2, 3] (by decide) (by decide) (by decide)).1 0 1
      (by decide) (by decide) (by decide),
    (extrap_spec [0, 2, 4] [0, 2, 3] (by decide) (by decide) (by decide)).2.1 (-1)
      (by decide),
    (extrap_spec [0, 2, 4] [0, 2, 3] (by decide) (by decide) (by decide)).2.2 5
      (by decide)⟩

/-! ### C4: `initprof` at the critical radius `rsup` -/

theorem rsup_cube (rmin rmax xieut k_fe xi0l : ℝ)
    (hX : 0 ≤ rmax ^ 3 - xired xieut xi0l ^ ((1 : ℝ) / (1 - k_fe)) * (rmax ^ 3 - rmin ^ 3)) :
    rsup rmin rmax xieut k_fe xi0l ^ 3 =
      rmax ^ 3 - xired xieut xi0l ^ ((1 : ℝ) / (1 - k_fe)) * (rmax ^ 3 - rmin ^ 3) := by
  rw [rsup, ← Real.rpow_natCast (_ ^ ((1 : ℝ) / 3)) 3, ← Real.rpow_mul hX]
  norm_num

theorem powerBranch_at_rsup (rmin rmax xieut k_fe xi0l : ℝ)
    (hxe : 0 < xieut) (hx0 : 0 < xi0l) (hk : k_fe ≠ 1) (hmin : 0 ≤ rmin) (hr : rmin < rmax)
    (hX : 0 ≤ rmax ^ 3 - xired xieut xi0l ^ ((1 : ℝ) / (1 - k_fe)) * (rmax ^ 3 - rmin ^ 3)) :
    powerBranch rmin rmax k_fe xi0l (rsup rmin rmax xieut k_fe xi0l) = k_fe * xieut := by
  have hxir : 0 < xired xieut xi0l := div_pos hx0 hxe
  have hpow : 0 < xired xieut xi0l ^ ((1 : ℝ) / (1 - k_fe)) := Real.rpow_pos_of_pos hxir _
  have hvol : 0 < rmax ^ 3 - rmin ^ 3 := by
    have h3 : rmin ^ 3 < rmax ^ 3 := by
      apply pow_lt_pow_left₀ hr hmin
      norm_num
    linarith
  have hk' : (1 : ℝ) - k_fe ≠ 0 := sub_ne_zero.2 (Ne.symm hk)
  have hden : rmax ^ 3 - rsup rmin rmax xieut k_fe xi0l ^ 3 =
      xired xieut xi0l ^ ((1 : ℝ) / (1 - k_fe)) * (rmax ^ 3 - rmin ^ 3) := by
    rw [rsup_cube rmin rmax xieut k_fe xi0l hX]
    ring
  have hbase : (rmax ^ 3 - rmin ^ 3) /
      (xired xieut xi0l ^ ((1 : ℝ) / (1 - k_fe)) * (rmax ^ 3 - rmin ^ 3)) =
      (xired xieut xi0l ^ ((1 : ℝ) / (1 - k_fe)))⁻¹ := by
    rw [div_mul_eq_div_div_swap, div_self (ne_of_gt hvol), one_div]
  rw [powerBranch, hden, hbase, Real.inv_rpow (le_of_lt hpow),
    ← Real.rpow_mul (le_of_lt hxir), one_div_mul_cancel hk', Real.rpow_one,
    xi0s, xired, inv_div]
  have hxne : xi0l ≠ 0 := ne_of_gt hx0
  field_simp
  ring

theorem initprof_tendsto_left (rmin rmax xieut k_fe xi0l : ℝ)
    (hxe : 0 < xieut) (hx0 : 0 < xi0l) (hk : k_fe ≠ 1) (hmin : 0 ≤ rmin) (hr : rmin < rmax)
    (hX : 0 ≤ rmax ^ 3 - xired xieut xi0l ^ ((1 : ℝ) / (1 - k_fe)) * (rmax ^ 3 - rmin ^ 3)) :
    Filter.Tendsto (initprof rmin rmax xieut k_fe xi0l)
      (nhdsWithin (rsup rmin rmax xieut k_fe xi0l)
        (Set.Iio (rsup rmin rmax xieut k_fe xi0l)))
      (nhds (k_fe * xieut)) := by
  have hxir : 0 < xired xieut xi0l := div_pos hx0 hxe
  have hpow : 0 < xired xieut xi0l ^ ((1 : ℝ) / (1 - k_fe)) := Real.rpow_pos_of_pos hxir _
  have hvol : 0 < rmax ^ 3 - rmin ^ 3 := by
    have h3 : rmin ^ 3 < rmax ^ 3 := by
      apply pow_lt_pow_left₀ hr hmin
      norm_num
    linarith
  have hdenpos : 0 < rmax ^ 3 - rsup rmin rmax xieut k_fe xi0l ^ 3 := by
    rw [rsup_cube rmin rmax xieut k_fe xi0l hX]
    have := mul_pos hpow hvol
    linarith [mul_pos hpow hvol]
  have hbasepos : 0 < (rmax ^ 3 - rmin ^ 3) /
      (rmax ^ 3 - rsup rmin rmax xieut k_fe xi0l ^ 3) := div_pos hvol hdenpos
  have hcont : ContinuousAt (powerBranch rmin rmax k_fe xi0l)
      (rsup rmin rmax xieut k_fe xi0l) := by
    have hbase : ContinuousAt
        (fun rpos : ℝ => (rmax ^ 3 - rmin ^ 3) / (rmax ^ 3 - rpos ^ 3))
        (rsup rmin rmax xieut k_fe xi0l) := by
      apply ContinuousAt.div continuousAt_const
      · exact (continuous_const.sub (continuous_pow 3)).continuousAt
      · exact ne_of_gt hdenpos
    have hpowc : ContinuousAt
        (fun rpos : ℝ => ((rmax ^ 3 - rmin ^ 3) / (rmax ^ 3 - rpos ^ 3)) ^ ((1 : ℝ) - k_fe))
        (rsup rmin rmax xieut k_fe xi0l) :=
      ContinuousAt.rpow_const hbase (Or.inl (ne_of_gt hbasepos))
    exact continuousAt_const.mul hpowc
  have htb : Filter.Tendsto (powerBranch rmin rmax k_fe xi0l)
      (nhdsWithin (rsup rmin rmax xieut k_fe xi0l)
        (Set.Iio (rsup rmin rmax xieut k_fe xi0l)))
      (nhds (powerBranch rmin rmax k_fe xi0l (rsup rmin rmax xieut k_fe xi0l))) :=
    hcont.tendsto.mono_left nhdsWithin_le_nhds
  rw [powerBranch_at_rsup rmin rmax xieut k_fe xi0l hxe hx0 hk hmin hr hX] at htb
  refine htb.congr' ?_
  filter_upwards [self_mem_nhdsWithin] with rpos hrpos
  exact (if_pos hrpos).symm

/-- C4 (counterexample): with `rmin = 0`, `rmax = 1`, `xieut = 1`,
`k_fe = 1/2`, `xi0l = 1`, the power-law branch tends to
`k_fe * xieut = 1/2` at `rsup` from below, while the eutectic constant
returned for `r ≥ rsup` is `xieut = 1`: `initprof` is not continuous at
`rsup`. -/
theorem initprof_continuity_claim_false :
    ¬ Filter.Tendsto (initprof 0 1 1 (1 / 2) 1)
      (nhdsWithin (rsup 0 1 1 (1 / 2) 1) (Set.Iio (rsup 0 1 1 (1 / 2) 1)))
      (nhds (initprof 0 1 1 (1 / 2) 1 (rsup 0 1 1 (1 / 2) 1))) := by
  have hX : (0 : ℝ) ≤ 1 ^ 3 - xired 1 1 ^ ((1 : ℝ) / (1 - 1 / 2)) * (1 ^ 3 - 0 ^ 3) := by
    simp [xired, Real.one_rpow]
  have ht := initprof_tendsto_left 0 1 1 (1 / 2) 1 (by norm_num) (by norm_num)
    (by norm_num) (by norm_num) (by norm_num) hX
  intro h
  have hval : initprof 0 1 1 (1 / 2) 1 (rsup 0 1 1 (1 / 2) 1) = 1 := by
    rw [initprof, if_neg (lt_irrefl _)]
  rw [hval] at h
  have huniq := tendsto_nhds_unique h ht
  norm_num at huniq

/-- C4 (amended): for positive `xieut`, `xi0l`, partition coefficient
`k_fe ≠ 1` and radius bounds `0 ≤ rmin < rmax` (with the radicand of `rsup`
nonnegative), the power-law branch of `initprof` tends to `k_fe * xieut` as
`r` approaches `rsup` from below — not to the eutectic constant `xieut`
returned for `r ≥ rsup`; the two differ whenever `k_fe ≠ 1`, so `initprof`
has a jump of factor `k_fe` at `rsup`. -/
theorem initprof_left_limit (rmin rmax xieut k_fe xi0l : ℝ)
    (hxe : 0 < xieut) (hx0 : 0 < xi0l) (hk : k_fe ≠ 1) (hmin : 0 ≤ rmin) (hr : rmin < rmax)
    (hX : 0 ≤ rmax ^ 3 - xired xieut xi0l ^ ((1 : ℝ) / (1 - k_fe)) * (rmax ^ 3 - rmin ^ 3)) :
    Filter.Tendsto (initprof rmin rmax xieut k_fe xi0l)
      (nhdsWithin (rsup rmin rmax xieut k_fe xi0l)
        (Set.Iio (rsup rmin rmax xieut k_fe xi0l)))
      (nhds (k_fe * xieut)) ∧
    initprof rmin rmax xieut k_fe xi0l (rsup rmin rmax xieut k_fe xi0l) = xieut ∧
    k_fe * xieut ≠ xieut := by
  refine ⟨initprof_tendsto_left rmin rmax xieut k_fe xi0l hxe hx0 hk hmin hr hX, ?_, ?_⟩
  · rw [initprof, if_neg (lt_irrefl _)]
  · intro hcontra
    have hfac : (k_fe - 1) * xieut = 0 := by linarith
    rcases mul_eq_zero.1 hfac with h1 | h1
    · exact hk (by linarith)
    · exact ne_of_gt hxe h1

/-- Witness for `initprof_left_limit` at `rmin = 0`, `rmax = 1`, `xieut = 1`,
`k_fe = 1/2`, `xi0l = 1`. -/
theorem initprof_left_limit_witness :
    ((0 : ℝ) < 1 ∧ (0 : ℝ) < 1 ∧ (1 / 2 : ℝ) ≠ 1 ∧ (0 : ℝ) ≤ 0 ∧ (0 : ℝ) < 1 ∧
      (0 : ℝ) ≤ 1 ^ 3 - xired 1 1 ^ ((1 : ℝ) / (1 - 1 / 2)) * (1 ^ 3 - 0 ^ 3)) ∧
    (Filter.Tendsto (initprof 0 1 1 (1 / 2) 1)
        (nhdsWithin (rsup 0 1 1 (1 / 2) 1) (Set.Iio (rsup 0 1 1 (1 / 2) 1)))
        (nhds ((1 / 2) * 1)) ∧
      initprof 0 1 1 (1 / 2) 1 (rsup 0 1 1 (1 / 2) 1) = 1 ∧
      (1 / 2 : ℝ) * 1 ≠ 1) :=
  ⟨⟨by norm_num, by norm_num, by norm_num, by norm_num, by norm_num,
      by simp [xired, Real.one_rpow]⟩,
    initprof_left_limit 0 1 1 (1 / 2) 1 (by norm_num) (by norm_num) (by norm_num)
      (by norm_num) (by norm_num) (by simp [xired, Real.one_rpow])⟩
